import Mathlib

/-!
Shallow embedding of `wfes.c` (Wright-Fisher exact solver).

The driver `wfes` assembles a sparse generator matrix for the 2N-1 transient
states of the Wright-Fisher chain, runs the external direct solver through its
phase protocol (analyze 11, factorize 22, solve 33 twice, release -1), and
reduces the two solved vectors into the output statistics.

Doubles are modelled as exact rationals; the scalar summary statistics, which
can become infinite or not-a-number through division, live in the type `Dval`.
The external solver is an oracle supplying a status and a solution vector for
each phase call; the embedding records the exact sequence of phase calls the
driver makes, mirroring the control flow of `wfes.c` lines 130-252.
-/

/-- Result of a double computation: a finite rational, an infinity, or NaN. -/
inductive Dval where
  | fin (x : ℚ)
  | posInf
  | negInf
  | nan
deriving DecidableEq

/-- IEEE-style division of two finite doubles (`x / y` in C): ordinary division
for a nonzero denominator; for a zero denominator the sign of the numerator
decides between the infinities and NaN (`0/0`). Only finite operands occur in
this development. -/
def ddiv (a b : ℚ) : Dval :=
  if b = 0 then (if 0 < a then Dval.posInf else if a < 0 then Dval.negInf else Dval.nan)
  else Dval.fin (a / b)

/-- The clamp at lines 182-184 / 204-206 of `wfes.c`: negative entries become 0. -/
def clamp0 (x : ℚ) : ℚ := if x < 0 then 0 else x

/-- Accumulated numerator of `time_extinction` (`wfes.c` line 217):
`Σ_i B1[i] * N[i]` over the clamped vectors. -/
def sumTE (m : ℕ) (raw1 rawN : ℕ → ℚ) : ℚ :=
  ∑ i ∈ Finset.range m, clamp0 (raw1 i) * clamp0 (rawN i)

/-- Accumulated numerator of `time_fixation` (`wfes.c` line 218):
`Σ_i B2[i] * N[i]` with `B2[i] = 1 - B1[i]`. -/
def sumTF (m : ℕ) (raw1 rawN : ℕ → ℚ) : ℚ :=
  ∑ i ∈ Finset.range m, (1 - clamp0 (raw1 i)) * clamp0 (rawN i)

/-- Accumulated numerator of `count_before_extinction` (`wfes.c` line 219):
`Σ_i (N[i] * B1[i]) * (i+1)`. -/
def sumCB (m : ℕ) (raw1 rawN : ℕ → ℚ) : ℚ :=
  ∑ i ∈ Finset.range m, (clamp0 (rawN i) * clamp0 (raw1 i)) * ((i : ℚ) + 1)

/-- The Results entity (`wf_statistics`): the three vectors and the five scalar
summaries populated by `wfes`. -/
structure WfStatistics where
  B1 : ℕ → ℚ
  B2 : ℕ → ℚ
  N : ℕ → ℚ
  probability_extinction : ℚ
  probability_fixation : ℚ
  time_extinction : Dval
  time_fixation : Dval
  count_before_extinction : Dval

/-- The statistics reduction of `wfes.c` lines 180-237, applied to the raw
forward solution `raw1` and raw transpose solution `rawN`, with the incoming
values `te0 tf0 cbe0` of the scalar accumulator fields (the code adds onto them
with `+=` and never resets them).  `B1` is `raw1` clamped at 0, `B2 = 1 - B1`,
`N` is `rawN` clamped at 0; each scalar sum is divided by `B1[0]` (resp.
`B2[0]`); when `B1[0] <= 0` the code then overwrites `time_extinction` with NaN
and zeroes `probability_extinction` (symmetrically for fixation), leaving
`count_before_extinction` untouched. -/
def reduceStats (m : ℕ) (raw1 rawN : ℕ → ℚ) (te0 tf0 cbe0 : ℚ) : WfStatistics :=
  ⟨fun i => clamp0 (raw1 i),
   fun i => 1 - clamp0 (raw1 i),
   fun i => clamp0 (rawN i),
   if clamp0 (raw1 0) ≤ 0 then 0 else clamp0 (raw1 0),
   if 1 - clamp0 (raw1 0) ≤ 0 then 0 else 1 - clamp0 (raw1 0),
   if clamp0 (raw1 0) ≤ 0 then Dval.nan
     else ddiv (te0 + sumTE m raw1 rawN) (clamp0 (raw1 0)),
   if 1 - clamp0 (raw1 0) ≤ 0 then Dval.nan
     else ddiv (tf0 + sumTF m raw1 rawN) (1 - clamp0 (raw1 0)),
   ddiv (cbe0 + sumCB m raw1 rawN) (clamp0 (raw1 0))⟩

/-- Statistics of a full run: the scalar accumulators start at zero.
Modelled from the spec: `wf_statistics_new` (not under src/) allocates the
Results entity once per run and the Statistics Reducer populates it by the
documented formulas, so the scalar summaries enter `wfes` holding zero. -/
def runStats (Npop : ℕ) (sol1 sol2 : ℕ → ℚ) : WfStatistics :=
  reduceStats (2 * Npop - 1) sol1 sol2 0 0 0

/-- The extinction right-hand side (`wfes.c` lines 81-84):
`rhs[i] = (1 - q(i+1))^(2N)` where `q` is the sampling coefficient
`wf_sampling_coefficient` (external to src/, kept abstract). -/
def extinctionRHS (Npop : ℕ) (q : ℕ → ℚ) : List ℚ :=
  (List.range (2 * Npop - 1)).map (fun i => (1 - q (i + 1)) ^ (2 * Npop))

/-- The sojourn right-hand side (`wfes.c` lines 190-193): the unit vector with
1 at index 0 (the one-copy starting state) and 0 elsewhere. -/
def sojournRHS (m : ℕ) : List ℚ :=
  (List.range m).map (fun i => if i = 0 then (1 : ℚ) else 0)

/-- Binomial(n, p) probability mass at k. -/
def binomPMF (n : ℕ) (p : ℚ) (k : ℕ) : ℚ :=
  (n.choose k : ℚ) * p ^ k * (1 - p) ^ (n - k)

/-- Modelled from the spec: one row of the matrix `(I - Q)` built by
`wf_matrix_csr` (whose body is not under src/).  Row `i` holds, for each
transient column `j`, the entry `1 - Q[i][j]` on the diagonal and `-Q[i][j]`
off it, where `Q[i][j]` is the Binomial(2N, q(i+1)) mass at `j+1` copies; an
off-diagonal entry is included only when its magnitude exceeds the
zero-threshold, while the diagonal entry is always kept. -/
def wfRow (Npop : ℕ) (q : ℕ → ℚ) (thr : ℚ) (m i : ℕ) : List (ℕ × ℚ) :=
  (List.range m).filterMap (fun j =>
    let p := binomPMF (2 * Npop) (q (i + 1)) (j + 1)
    let v := if j = i then 1 - p else -p
    if j = i ∨ thr < |v| then some (j, v) else none)

/-- Sparse matrix represented as its list of rows, each row a list of
(column, value) pairs. -/
abbrev CSR := List (List (ℕ × ℚ))

/-- Modelled from the spec: block-wise row assembly.  Starting at row `start`,
emit one block of `min bs (m - start)` rows, then recurse at `start + bs`;
`fuel` bounds the number of blocks (any `fuel ≥ number of blocks` yields the
full assembly). -/
def assembleBlockedAux (row : ℕ → List (ℕ × ℚ)) (m bs : ℕ) : ℕ → ℕ → CSR
  | _, 0 => []
  | start, fuel + 1 =>
    if start < m then
      ((List.range' start (min bs (m - start))).map row) ++
        assembleBlockedAux row m bs (start + bs) fuel
    else []

/-- Modelled from the spec: rows `0..m-1` are processed in blocks of `bs`
(purely a working-set control). -/
def assembleBlocked (row : ℕ → List (ℕ × ℚ)) (m bs : ℕ) : CSR :=
  assembleBlockedAux row m bs 0 m

/-- Modelled from the spec: `wf_matrix_csr` (body not under src/) assembles the
`(2N-1) × (2N-1)` matrix `(I - Q)` row-block-wise with block size `bs` and
zero-threshold `thr`. -/
def wf_matrix_csr (Npop : ℕ) (q : ℕ → ℚ) (bs : ℕ) (thr : ℚ) : CSR :=
  assembleBlocked (wfRow Npop q thr (2 * Npop - 1)) (2 * Npop - 1) bs

/-- Row-block size chosen by `wfes.c` lines 58-63: the code computes
`matrix_size * 0.1` truncated to an integer when `matrix_size >= 100`, else the
full dimension.  For every reachable size (`m = 2N-1` odd, `m` far below
`2^53 / 10`) the truncated double product equals `⌊m / 10⌋`, embedded here as
natural division. -/
def block_size (m : ℕ) : ℕ := if 100 ≤ m then m / 10 else m

/-- The external direct solver as an oracle: a status for each of the four
fallible phase calls of one run, and the solution vectors the two solves write
into the right-hand-side buffer. -/
structure SolverOracle where
  analyzeStatus : ℤ
  factorizeStatus : ℤ
  solve1Status : ℤ
  solve2Status : ℤ
  sol1 : ℕ → ℚ
  sol2 : ℕ → ℚ

/-- One `pardiso_64` call as recorded in the run trace: the phase, the matrix
it is given, and for solve calls the transpose-mode control parameter
`iparm[11]` (0 = forward, 2 = transpose) and the right-hand side. -/
inductive PhaseCall where
  | analyze (A : CSR)
  | factorize (A : CSR)
  | solve (A : CSR) (iparm11 : ℤ) (rhs : List ℚ)
  | release
deriving DecidableEq

/-- Whether a phase call is the symbolic-factorization (Analyze) phase. -/
def PhaseCall.isAnalyze : PhaseCall → Bool
  | .analyze _ => true
  | _ => false

/-- Whether a phase call is the numeric-factorization (Factorize) phase. -/
def PhaseCall.isFactorize : PhaseCall → Bool
  | .factorize _ => true
  | _ => false

/-- Whether a phase call is a Solve phase. -/
def PhaseCall.isSolve : PhaseCall → Bool
  | .solve _ _ _ => true
  | _ => false

/-- Whether a phase call is the Release phase. -/
def PhaseCall.isRelease : PhaseCall → Bool
  | .release => true
  | _ => false

/-- How a run ends: success with the populated statistics, or a fatal abort
via `exit(phase)` after printing an error line. -/
inductive RunOutcome where
  | success (r : WfStatistics)
  | abort (code : ℤ) (msg : String)

/-- The control flow of `wfes` (`wfes.c` lines 39-260) against an oracle
solver: assemble the matrix, build the extinction RHS, call phase 11 then 22
(aborting with `exit(phase)` and the phase-specific message on a nonzero
status), solve forward (`iparm[11] = 0`) with the extinction RHS, solve
transpose (`iparm[11] = 2`) with the unit sojourn RHS (both aborting with
`exit(33)` and the message "ERROR during solution" on failure), reduce the
statistics, and release.  Returns the trace of solver phase calls and the
outcome; `te0 tf0 cbe0` are the incoming values of the three scalar accumulator
fields of the caller-supplied statistics. -/
def wfesRun (Npop : ℕ) (q : ℕ → ℚ) (thr : ℚ) (o : SolverOracle)
    (te0 tf0 cbe0 : ℚ) : List PhaseCall × RunOutcome :=
  let m := 2 * Npop - 1
  let A := wf_matrix_csr Npop q (block_size m) thr
  if o.analyzeStatus ≠ 0 then
    ([PhaseCall.analyze A],
     RunOutcome.abort 11 ("ERROR during symbolic factorization: " ++ toString o.analyzeStatus))
  else if o.factorizeStatus ≠ 0 then
    ([PhaseCall.analyze A, PhaseCall.factorize A],
     RunOutcome.abort 22 ("ERROR during numeric factorization: " ++ toString o.factorizeStatus))
  else if o.solve1Status ≠ 0 then
    ([PhaseCall.analyze A, PhaseCall.factorize A,
      PhaseCall.solve A 0 (extinctionRHS Npop q)],
     RunOutcome.abort 33 ("ERROR during solution: " ++ toString o.solve1Status))
  else if o.solve2Status ≠ 0 then
    ([PhaseCall.analyze A, PhaseCall.factorize A,
      PhaseCall.solve A 0 (extinctionRHS Npop q),
      PhaseCall.solve A 2 (sojournRHS m)],
     RunOutcome.abort 33 ("ERROR during solution: " ++ toString o.solve2Status))
  else
    ([PhaseCall.analyze A, PhaseCall.factorize A,
      PhaseCall.solve A 0 (extinctionRHS Npop q),
      PhaseCall.solve A 2 (sojournRHS m),
      PhaseCall.release],
     RunOutcome.success (reduceStats m o.sol1 o.sol2 te0 tf0 cbe0))

/-- Splitting a contiguous index range at an interior point. -/
theorem rangeSplit (a b c : ℕ) :
    List.range' a (b + c) = List.range' a b ++ List.range' (a + b) c := by
  have h := List.range'_append a b c 1
  simp only [one_mul, Nat.mul_one] at h
  rw [Nat.add_comm b c]
  exact h.symm

/-- With positive block size and enough fuel, block-wise assembly from `start`
emits exactly the rows `start..m-1` in order. -/
theorem assembleBlockedAux_eq (row : ℕ → List (ℕ × ℚ)) (m bs : ℕ) :
    ∀ fuel start, m ≤ start + fuel * bs →
      assembleBlockedAux row m bs start fuel = (List.range' start (m - start)).map row := by
  intro fuel
  induction fuel with
  | zero =>
    intro start h
    have h0 : m - start = 0 := by omega
    simp [assembleBlockedAux, h0]
  | succ n ih =>
    intro start h
    rw [Nat.succ_mul] at h
    by_cases hs : start < m
    · rw [assembleBlockedAux, if_pos hs]
      rcases le_or_lt bs (m - start) with hle | hlt
      · have hmin : min bs (m - start) = bs := min_eq_left hle
        rw [hmin, ih (start + bs) (by omega)]
        obtain ⟨k, hk⟩ : ∃ k, m - start = bs + k := ⟨m - start - bs, by omega⟩
        have e1 : m - (start + bs) = k := by omega
        rw [e1, hk, rangeSplit, List.map_append]
      · have hmin : min bs (m - start) = m - start := min_eq_right (le_of_lt hlt)
        have hempty : assembleBlockedAux row m bs (start + bs) n = [] := by
          cases n with
          | zero => rfl
          | succ k => rw [assembleBlockedAux, if_neg (by omega)]
        rw [hmin, hempty, List.append_nil]
    · rw [assembleBlockedAux, if_neg hs]
      have h0 : m - start = 0 := by omega
      simp [h0]

/-- Block-wise assembly with any positive block size equals the plain
row-by-row assembly. -/
theorem assembleBlocked_eq (row : ℕ → List (ℕ × ℚ)) (m bs : ℕ) (hbs : 1 ≤ bs) :
    assembleBlocked row m bs = (List.range m).map row := by
  unfold assembleBlocked
  have hfuel : m ≤ 0 + m * bs := by
    have h2 := Nat.mul_le_mul_left m hbs
    omega
  rw [assembleBlockedAux_eq row m bs m 0 hfuel]
  simp [List.range_eq_range']

/-- C8: the row-block size for matrix assembly is one tenth of the dimension
`2N-1` (integer part) once the matrix has at least 100 rows — equivalently,
since `2N-1` is odd, once it exceeds 100 — and the full dimension otherwise;
and the assembled matrix is the same for every positive block size, namely the
plain list of rows. -/
theorem wfes_block_size_assembly (Npop : ℕ) (q : ℕ → ℚ) (thr : ℚ) (hN : 2 ≤ Npop) :
    (100 < 2 * Npop - 1 → block_size (2 * Npop - 1) = (2 * Npop - 1) / 10)
    ∧ (2 * Npop - 1 ≤ 100 → block_size (2 * Npop - 1) = 2 * Npop - 1)
    ∧ (∀ bs, 1 ≤ bs →
        wf_matrix_csr Npop q bs thr =
          (List.range (2 * Npop - 1)).map (wfRow Npop q thr (2 * Npop - 1))) := by
  refine ⟨?_, ?_, ?_⟩
  · intro h
    unfold block_size
    rw [if_pos (by omega)]
  · intro h
    unfold block_size
    rw [if_neg (by omega)]
  · intro bs hbs
    exact assembleBlocked_eq _ _ _ hbs

/-- Witness for C8: at N = 2 (dimension 3) the below-100 branch returns the
full dimension, and assembling with block size 1 gives the plain row list. -/
theorem wfes_block_size_assembly_witness :
    (2 * 2 - 1 ≤ 100 → block_size (2 * 2 - 1) = 2 * 2 - 1)
    ∧ wf_matrix_csr 2 (fun _ => 1/2) 1 0 =
        (List.range (2 * 2 - 1)).map (wfRow 2 (fun _ => 1/2) 0 (2 * 2 - 1)) :=
  ⟨(wfes_block_size_assembly 2 (fun _ => 1/2) 0 (by decide)).2.1,
   (wfes_block_size_assembly 2 (fun _ => 1/2) 0 (by decide)).2.2 1 (by decide)⟩

/-- C2 (amended): in every run in which no solver phase reports an error, the
trace of solver calls is exactly Analyze, Factorize, Solve in forward mode
(`iparm[11] = 0`) with the extinction RHS, Solve in transpose mode
(`iparm[11] = 2`) with the unit sojourn RHS, then Release — all against the one
assembled matrix; in particular Analyze and Factorize run exactly once and
Solve exactly twice. -/
theorem wfes_phase_protocol (Npop : ℕ) (q : ℕ → ℚ) (thr : ℚ) (sol1 sol2 : ℕ → ℚ)
    (te0 tf0 cbe0 : ℚ) :
    (wfesRun Npop q thr ⟨0, 0, 0, 0, sol1, sol2⟩ te0 tf0 cbe0).1 =
      [PhaseCall.analyze (wf_matrix_csr Npop q (block_size (2 * Npop - 1)) thr),
       PhaseCall.factorize (wf_matrix_csr Npop q (block_size (2 * Npop - 1)) thr),
       PhaseCall.solve (wf_matrix_csr Npop q (block_size (2 * Npop - 1)) thr) 0
         (extinctionRHS Npop q),
       PhaseCall.solve (wf_matrix_csr Npop q (block_size (2 * Npop - 1)) thr) 2
         (sojournRHS (2 * Npop - 1)),
       PhaseCall.release]
    ∧ (wfesRun Npop q thr ⟨0, 0, 0, 0, sol1, sol2⟩ te0 tf0 cbe0).1.countP
        PhaseCall.isAnalyze = 1
    ∧ (wfesRun Npop q thr ⟨0, 0, 0, 0, sol1, sol2⟩ te0 tf0 cbe0).1.countP
        PhaseCall.isFactorize = 1
    ∧ (wfesRun Npop q thr ⟨0, 0, 0, 0, sol1, sol2⟩ te0 tf0 cbe0).1.countP
        PhaseCall.isSolve = 2 := by
  refine ⟨?_, ?_, ?_, ?_⟩ <;>
    simp [wfesRun, List.countP_cons, List.countP_nil, PhaseCall.isAnalyze,
      PhaseCall.isFactorize, PhaseCall.isSolve]

/-- C2 counterexample: in the run whose Analyze phase fails, Factorize and
Solve are invoked zero times, not once and twice, so the protocol counts do not
hold of every run. -/
theorem wfes_phase_protocol_cex :
    ((wfesRun 2 (fun _ => 0) 0 ⟨1, 0, 0, 0, fun _ => 0, fun _ => 0⟩ 0 0 0).1.countP
        PhaseCall.isFactorize = 0)
    ∧ ((wfesRun 2 (fun _ => 0) 0 ⟨1, 0, 0, 0, fun _ => 0, fun _ => 0⟩ 0 0 0).1.countP
        PhaseCall.isSolve = 0) :=
  ⟨rfl, rfl⟩

/-- C4 (amended): Release is invoked exactly once on the success path, but on
every fatal-abort path the run exits without invoking Release at all. -/
theorem wfes_release_once (Npop : ℕ) (q : ℕ → ℚ) (thr : ℚ) (o : SolverOracle)
    (te0 tf0 cbe0 : ℚ) :
    (o.analyzeStatus = 0 → o.factorizeStatus = 0 → o.solve1Status = 0 →
      o.solve2Status = 0 →
      (wfesRun Npop q thr o te0 tf0 cbe0).1.countP PhaseCall.isRelease = 1)
    ∧ ((o.analyzeStatus ≠ 0 ∨ o.factorizeStatus ≠ 0 ∨ o.solve1Status ≠ 0 ∨
        o.solve2Status ≠ 0) →
      (wfesRun Npop q thr o te0 tf0 cbe0).1.countP PhaseCall.isRelease = 0) := by
  by_cases h1 : o.analyzeStatus = 0 <;>
    by_cases h2 : o.factorizeStatus = 0 <;>
      by_cases h3 : o.solve1Status = 0 <;>
        by_cases h4 : o.solve2Status = 0 <;>
          simp [wfesRun, h1, h2, h3, h4, List.countP_cons, List.countP_nil,
            PhaseCall.isRelease]

/-- Witness for C4 (amended) at an all-success oracle: exactly one Release. -/
theorem wfes_release_once_witness :
    (wfesRun 2 (fun _ => 0) 0 ⟨0, 0, 0, 0, fun _ => 0, fun _ => 0⟩ 0 0 0).1.countP
      PhaseCall.isRelease = 1 :=
  (wfes_release_once 2 (fun _ => 0) 0 ⟨0, 0, 0, 0, fun _ => 0, fun _ => 0⟩ 0 0 0).1
    rfl rfl rfl rfl

/-- C4 counterexample: on the fatal-abort path where Analyze fails, the run
ends with zero Release calls, so Release is not invoked on every exit path. -/
theorem wfes_release_cex :
    (wfesRun 2 (fun _ => 0) 0 ⟨1, 0, 0, 0, fun _ => 0, fun _ => 0⟩ 0 0 0).1.countP
      PhaseCall.isRelease = 0 :=
  rfl

/-- C9: a fatal solver error makes the run exit with the phase code (11 for
Analyze, 22 for Factorize, 33 for either Solve), not with the solver's own
nonzero status; the two Solve failures produce the same exit code and the same
message text, so they are indistinguishable to the operator. -/
theorem wfes_exit_codes (Npop : ℕ) (q : ℕ → ℚ) (thr : ℚ) (sol1 sol2 : ℕ → ℚ)
    (e : ℤ) (he : e ≠ 0) :
    (wfesRun Npop q thr ⟨e, 0, 0, 0, sol1, sol2⟩ 0 0 0).2 =
        RunOutcome.abort 11 ("ERROR during symbolic factorization: " ++ toString e)
    ∧ (wfesRun Npop q thr ⟨0, e, 0, 0, sol1, sol2⟩ 0 0 0).2 =
        RunOutcome.abort 22 ("ERROR during numeric factorization: " ++ toString e)
    ∧ (wfesRun Npop q thr ⟨0, 0, e, 0, sol1, sol2⟩ 0 0 0).2 =
        RunOutcome.abort 33 ("ERROR during solution: " ++ toString e)
    ∧ (wfesRun Npop q thr ⟨0, 0, 0, e, sol1, sol2⟩ 0 0 0).2 =
        RunOutcome.abort 33 ("ERROR during solution: " ++ toString e)
    ∧ (wfesRun Npop q thr ⟨0, 0, e, 0, sol1, sol2⟩ 0 0 0).2 =
        (wfesRun Npop q thr ⟨0, 0, 0, e, sol1, sol2⟩ 0 0 0).2 := by
  refine ⟨?_, ?_, ?_, ?_, ?_⟩ <;> simp [wfesRun, he]

/-- Witness for C9 at solver status 5. -/
theorem wfes_exit_codes_witness :
    (wfesRun 2 (fun _ => 0) 0 ⟨5, 0, 0, 0, fun _ => 0, fun _ => 0⟩ 0 0 0).2 =
        RunOutcome.abort 11 ("ERROR during symbolic factorization: " ++ toString (5 : ℤ))
    ∧ (wfesRun 2 (fun _ => 0) 0 ⟨0, 5, 0, 0, fun _ => 0, fun _ => 0⟩ 0 0 0).2 =
        RunOutcome.abort 22 ("ERROR during numeric factorization: " ++ toString (5 : ℤ))
    ∧ (wfesRun 2 (fun _ => 0) 0 ⟨0, 0, 5, 0, fun _ => 0, fun _ => 0⟩ 0 0 0).2 =
        RunOutcome.abort 33 ("ERROR during solution: " ++ toString (5 : ℤ))
    ∧ (wfesRun 2 (fun _ => 0) 0 ⟨0, 0, 0, 5, fun _ => 0, fun _ => 0⟩ 0 0 0).2 =
        RunOutcome.abort 33 ("ERROR during solution: " ++ toString (5 : ℤ))
    ∧ (wfesRun 2 (fun _ => 0) 0 ⟨0, 0, 5, 0, fun _ => 0, fun _ => 0⟩ 0 0 0).2 =
        (wfesRun 2 (fun _ => 0) 0 ⟨0, 0, 0, 5, fun _ => 0, fun _ => 0⟩ 0 0 0).2 :=
  wfes_exit_codes 2 (fun _ => 0) 0 (fun _ => 0) (fun _ => 0) 5 (by decide)

/-- C3: the right-hand side handed to the forward solve (the third phase call
of a clean run) is the extinction RHS, whose entry at every transient state `i`
is `(1 - q(i+1))^(2N)` for the sampling coefficient `q` of `i+1` copies. -/
theorem wfes_extinction_rhs (Npop : ℕ) (q : ℕ → ℚ) (thr : ℚ) (sol1 sol2 : ℕ → ℚ)
    (i : ℕ) (h : i < 2 * Npop - 1) :
    ((wfesRun Npop q thr ⟨0, 0, 0, 0, sol1, sol2⟩ 0 0 0).1)[2]? =
        some (PhaseCall.solve (wf_matrix_csr Npop q (block_size (2 * Npop - 1)) thr) 0
          (extinctionRHS Npop q))
    ∧ (extinctionRHS Npop q)[i]? = some ((1 - q (i + 1)) ^ (2 * Npop)) := by
  constructor
  · simp [wfesRun]
  · simp [extinctionRHS, List.getElem?_map, List.getElem?_range, h]

/-- Witness for C3 at N = 2, constant sampling coefficient 1/4, state 1. -/
theorem wfes_extinction_rhs_witness :
    (1 < 2 * 2 - 1)
    ∧ (((wfesRun 2 (fun _ => 1/4) 0 ⟨0, 0, 0, 0, fun _ => 0, fun _ => 0⟩ 0 0 0).1)[2]? =
        some (PhaseCall.solve (wf_matrix_csr 2 (fun _ => 1/4) (block_size (2 * 2 - 1)) 0) 0
          (extinctionRHS 2 (fun _ => 1/4)))
      ∧ (extinctionRHS 2 (fun _ => 1/4))[1]? =
          some ((1 - (fun _ => (1/4 : ℚ)) (1 + 1)) ^ (2 * 2))) :=
  ⟨by decide,
   wfes_extinction_rhs 2 (fun _ => 1/4) 0 (fun _ => 0) (fun _ => 0) 1 (by decide)⟩

/-- The clamp never produces a negative value. -/
theorem clamp0_nonneg (x : ℚ) : 0 ≤ clamp0 x := by
  unfold clamp0
  split
  · exact le_refl 0
  · exact not_lt.mp (by assumption)

/-- The clamp preserves an upper bound of 1. -/
theorem clamp0_le_one (x : ℚ) (h : x ≤ 1) : clamp0 x ≤ 1 := by
  unfold clamp0
  split
  · exact zero_le_one
  · exact h

/-- C1: in every run in which both solves succeed, the outcome carries the
reduced statistics, where `time_extinction = (Σ_i B1[i]·N[i]) / B1[0]` when
`B1[0] > 0` while `B1[0] ≤ 0` forces `probability_extinction = 0` and
`time_extinction = NaN`; symmetrically for fixation with `B2`. -/
theorem wfes_absorption_times (Npop : ℕ) (q : ℕ → ℚ) (thr : ℚ) (sol1 sol2 : ℕ → ℚ) :
    (wfesRun Npop q thr ⟨0, 0, 0, 0, sol1, sol2⟩ 0 0 0).2 =
        RunOutcome.success (runStats Npop sol1 sol2)
    ∧ (0 < (runStats Npop sol1 sol2).B1 0 →
        (runStats Npop sol1 sol2).time_extinction =
          Dval.fin ((∑ i ∈ Finset.range (2 * Npop - 1),
              (runStats Npop sol1 sol2).B1 i * (runStats Npop sol1 sol2).N i) /
            (runStats Npop sol1 sol2).B1 0))
    ∧ ((runStats Npop sol1 sol2).B1 0 ≤ 0 →
        (runStats Npop sol1 sol2).probability_extinction = 0
        ∧ (runStats Npop sol1 sol2).time_extinction = Dval.nan)
    ∧ (0 < (runStats Npop sol1 sol2).B2 0 →
        (runStats Npop sol1 sol2).time_fixation =
          Dval.fin ((∑ i ∈ Finset.range (2 * Npop - 1),
              (runStats Npop sol1 sol2).B2 i * (runStats Npop sol1 sol2).N i) /
            (runStats Npop sol1 sol2).B2 0))
    ∧ ((runStats Npop sol1 sol2).B2 0 ≤ 0 →
        (runStats Npop sol1 sol2).probability_fixation = 0
        ∧ (runStats Npop sol1 sol2).time_fixation = Dval.nan) := by
  refine ⟨?_, ?_, ?_, ?_, ?_⟩
  · simp [wfesRun, runStats]
  · intro h
    simp only [runStats, reduceStats] at h ⊢
    rw [if_neg (not_le.mpr h), ddiv, if_neg (ne_of_gt h), zero_add, sumTE]
  · intro h
    simp only [runStats, reduceStats] at h ⊢
    rw [if_pos h, if_pos h]
    exact ⟨rfl, rfl⟩
  · intro h
    simp only [runStats, reduceStats] at h ⊢
    rw [if_neg (not_le.mpr h), ddiv, if_neg (ne_of_gt h), zero_add, sumTF]
  · intro h
    simp only [runStats, reduceStats] at h ⊢
    rw [if_pos h, if_pos h]
    exact ⟨rfl, rfl⟩

/-- Witness for C1: with solved vectors constantly 1/2 and 1 at N = 2, both
conditional branches are positive and both times are finite quotients. -/
theorem wfes_absorption_times_witness :
    0 < (runStats 2 (fun _ => 1/2) (fun _ => 1)).B1 0
    ∧ (runStats 2 (fun _ => 1/2) (fun _ => 1)).time_extinction =
        Dval.fin ((∑ i ∈ Finset.range (2 * 2 - 1),
            (runStats 2 (fun _ => 1/2) (fun _ => 1)).B1 i *
              (runStats 2 (fun _ => 1/2) (fun _ => 1)).N i) /
          (runStats 2 (fun _ => 1/2) (fun _ => 1)).B1 0)
    ∧ 0 < (runStats 2 (fun _ => 1/2) (fun _ => 1)).B2 0
    ∧ (runStats 2 (fun _ => 1/2) (fun _ => 1)).time_fixation =
        Dval.fin ((∑ i ∈ Finset.range (2 * 2 - 1),
            (runStats 2 (fun _ => 1/2) (fun _ => 1)).B2 i *
              (runStats 2 (fun _ => 1/2) (fun _ => 1)).N i) /
          (runStats 2 (fun _ => 1/2) (fun _ => 1)).B2 0) :=
  ⟨by norm_num [runStats, reduceStats, clamp0],
   (wfes_absorption_times 2 (fun _ => 0) 0 (fun _ => 1/2) (fun _ => 1)).2.1
     (by norm_num [runStats, reduceStats, clamp0]),
   by norm_num [runStats, reduceStats, clamp0],
   (wfes_absorption_times 2 (fun _ => 0) 0 (fun _ => 1/2) (fun _ => 1)).2.2.2.1
     (by norm_num [runStats, reduceStats, clamp0])⟩

/-- C5: after the reducer, B1[i] + B2[i] = 1 for every transient state, every
sojourn entry is nonnegative, and a negative raw sojourn entry has been clamped
to 0. -/
theorem wfes_clamp_invariants (Npop : ℕ) (sol1 sol2 : ℕ → ℚ) (i : ℕ) :
    (runStats Npop sol1 sol2).B1 i + (runStats Npop sol1 sol2).B2 i = 1
    ∧ 0 ≤ (runStats Npop sol1 sol2).N i
    ∧ (sol2 i < 0 → (runStats Npop sol1 sol2).N i = 0) := by
  refine ⟨?_, ?_, ?_⟩
  · simp only [runStats, reduceStats]
    ring
  · simp only [runStats, reduceStats]
    exact clamp0_nonneg (sol2 i)
  · intro hneg
    simp only [runStats, reduceStats, clamp0]
    rw [if_pos hneg]

/-- Witness for C5: a raw sojourn entry of -1 is reported as 0. -/
theorem wfes_clamp_invariants_witness :
    ((fun _ => (-1 : ℚ)) 0 < 0)
    ∧ (runStats 2 (fun _ => 1/2) (fun _ => (-1 : ℚ))).N 0 = 0 :=
  ⟨by norm_num,
   (wfes_clamp_invariants 2 (fun _ => 1/2) (fun _ => (-1 : ℚ)) 0).2.2 (by norm_num)⟩

/-- C6 (amended): after the reducer, B1[0] is nonnegative and B2[0] is at most
1; both lie in [0,1] whenever the raw forward-solve entry at index 0 is at most
1, but a raw entry above 1 passes through the one-sided clamp, carrying B1[0]
above 1 and B2[0] below 0. -/
theorem wfes_prob_range (Npop : ℕ) (sol1 sol2 : ℕ → ℚ) :
    0 ≤ (runStats Npop sol1 sol2).B1 0
    ∧ (runStats Npop sol1 sol2).B2 0 ≤ 1
    ∧ (sol1 0 ≤ 1 →
        (runStats Npop sol1 sol2).B1 0 ≤ 1 ∧ 0 ≤ (runStats Npop sol1 sol2).B2 0) := by
  refine ⟨?_, ?_, ?_⟩
  · simp only [runStats, reduceStats]
    exact clamp0_nonneg (sol1 0)
  · simp only [runStats, reduceStats]
    have h := clamp0_nonneg (sol1 0)
    linarith
  · intro h
    have h1 := clamp0_le_one (sol1 0) h
    constructor
    · simp only [runStats, reduceStats]
      exact h1
    · simp only [runStats, reduceStats]
      linarith

/-- Witness for C6 (amended): a raw entry of 1/2 keeps both probabilities in
the unit interval. -/
theorem wfes_prob_range_witness :
    ((fun _ => (1/2 : ℚ)) 0 ≤ 1)
    ∧ ((runStats 2 (fun _ => 1/2) (fun _ => 0)).B1 0 ≤ 1
       ∧ 0 ≤ (runStats 2 (fun _ => 1/2) (fun _ => 0)).B2 0) :=
  ⟨by norm_num, (wfes_prob_range 2 (fun _ => 1/2) (fun _ => 0)).2.2 (by norm_num)⟩

/-- C6 counterexample: a raw forward-solve entry of 3/2 at index 0 (solver
noise above 1) yields B1[0] = 3/2 and B2[0] = -1/2, so B1[0] and B2[0] are not
both in [0, 1] for every raw solved vector. -/
theorem wfes_prob_range_cex :
    ¬ (0 ≤ (runStats 2 (fun _ => 3/2) (fun _ => 0)).B1 0
       ∧ (runStats 2 (fun _ => 3/2) (fun _ => 0)).B1 0 ≤ 1
       ∧ 0 ≤ (runStats 2 (fun _ => 3/2) (fun _ => 0)).B2 0
       ∧ (runStats 2 (fun _ => 3/2) (fun _ => 0)).B2 0 ≤ 1) := by
  intro h
  have hB := h.2.1
  norm_num [runStats, reduceStats, clamp0] at hB

/-- C7 (amended): `count_before_extinction = (Σ_i N[i]·B1[i]·(i+1)) / B1[0]`
when `B1[0] > 0`; when `B1[0] ≤ 0` the NaN guard is NOT applied to this field:
the division by zero yields positive infinity when the numerator is positive
and NaN only when the numerator is zero. -/
theorem wfes_count_formula (Npop : ℕ) (sol1 sol2 : ℕ → ℚ) :
    (0 < (runStats Npop sol1 sol2).B1 0 →
      (runStats Npop sol1 sol2).count_before_extinction =
        Dval.fin ((∑ i ∈ Finset.range (2 * Npop - 1),
            (runStats Npop sol1 sol2).N i * (runStats Npop sol1 sol2).B1 i * ((i : ℚ) + 1)) /
          (runStats Npop sol1 sol2).B1 0))
    ∧ ((runStats Npop sol1 sol2).B1 0 ≤ 0 →
        (0 < sumCB (2 * Npop - 1) sol1 sol2 →
          (runStats Npop sol1 sol2).count_before_extinction = Dval.posInf)
        ∧ (sumCB (2 * Npop - 1) sol1 sol2 = 0 →
          (runStats Npop sol1 sol2).count_before_extinction = Dval.nan)) := by
  constructor
  · intro h
    simp only [runStats, reduceStats] at h ⊢
    rw [ddiv, if_neg (ne_of_gt h), zero_add, sumCB]
  · intro h
    have h0 : clamp0 (sol1 0) = 0 :=
      le_antisymm (by simpa only [runStats, reduceStats] using h) (clamp0_nonneg _)
    constructor
    · intro hs
      simp only [runStats, reduceStats]
      rw [h0, ddiv, if_pos rfl, zero_add, if_pos hs]
    · intro hs
      simp only [runStats, reduceStats]
      rw [h0, ddiv, if_pos rfl, zero_add, hs]
      norm_num

/-- Witness for C7 (amended): with B1[0] = 1/2 the count is the finite
quotient. -/
theorem wfes_count_formula_witness :
    0 < (runStats 2 (fun _ => 1/2) (fun _ => 1)).B1 0
    ∧ (runStats 2 (fun _ => 1/2) (fun _ => 1)).count_before_extinction =
        Dval.fin ((∑ i ∈ Finset.range (2 * 2 - 1),
            (runStats 2 (fun _ => 1/2) (fun _ => 1)).N i *
              (runStats 2 (fun _ => 1/2) (fun _ => 1)).B1 i * ((i : ℚ) + 1)) /
          (runStats 2 (fun _ => 1/2) (fun _ => 1)).B1 0) :=
  ⟨by norm_num [runStats, reduceStats, clamp0],
   (wfes_count_formula 2 (fun _ => 1/2) (fun _ => 1)).1
     (by norm_num [runStats, reduceStats, clamp0])⟩

/-- C7 counterexample: with raw extinction vector (0, 1, 1) and raw sojourn
vector (1, 1, 1) at N = 2, B1[0] = 0 triggers the claimed guard, yet
`count_before_extinction` is positive infinity, not NaN. -/
theorem wfes_count_guard_cex :
    (runStats 2 (fun i => if i = 0 then 0 else 1) (fun _ => 1)).B1 0 ≤ 0
    ∧ (runStats 2 (fun i => if i = 0 then 0 else 1) (fun _ => 1)).count_before_extinction
        ≠ Dval.nan
    ∧ (runStats 2 (fun i => if i = 0 then 0 else 1) (fun _ => 1)).count_before_extinction
        = Dval.posInf := by
  have hc : (runStats 2 (fun i => if i = 0 then 0 else 1) (fun _ => 1)).count_before_extinction
      = Dval.posInf := by
    norm_num [runStats, reduceStats, clamp0, ddiv, sumCB, Finset.sum_range_succ]
  refine ⟨?_, ?_, hc⟩
  · norm_num [runStats, reduceStats, clamp0]
  · rw [hc]
    simp

/-- C10: wfes adds the scalar summaries onto the caller-supplied fields with
`+=` and never resets them, so with incoming values te0/tf0/cbe0 the reported
statistics are the documented formulas offset by incoming/B1[0] (resp.
incoming/B2[0]); in particular a nonzero incoming `time_extinction` makes the
reported value differ from the documented formula. -/
theorem wfes_accumulator_offset (m : ℕ) (raw1 rawN : ℕ → ℚ) (te0 tf0 cbe0 : ℚ)
    (h1 : 0 < clamp0 (raw1 0)) (h2 : clamp0 (raw1 0) < 1) :
    (reduceStats m raw1 rawN te0 tf0 cbe0).time_extinction =
        Dval.fin (sumTE m raw1 rawN / clamp0 (raw1 0) + te0 / clamp0 (raw1 0))
    ∧ (reduceStats m raw1 rawN te0 tf0 cbe0).time_fixation =
        Dval.fin (sumTF m raw1 rawN / (1 - clamp0 (raw1 0))
          + tf0 / (1 - clamp0 (raw1 0)))
    ∧ (reduceStats m raw1 rawN te0 tf0 cbe0).count_before_extinction =
        Dval.fin (sumCB m raw1 rawN / clamp0 (raw1 0) + cbe0 / clamp0 (raw1 0))
    ∧ (te0 ≠ 0 →
        (reduceStats m raw1 rawN te0 tf0 cbe0).time_extinction ≠
          Dval.fin (sumTE m raw1 rawN / clamp0 (raw1 0))) := by
  have hb1 : clamp0 (raw1 0) ≠ 0 := ne_of_gt h1
  have hnl : ¬ clamp0 (raw1 0) ≤ 0 := not_le.mpr h1
  have hb2p : (0 : ℚ) < 1 - clamp0 (raw1 0) := by linarith
  have hnl2 : ¬ 1 - clamp0 (raw1 0) ≤ 0 := not_le.mpr hb2p
  have hb2 : 1 - clamp0 (raw1 0) ≠ 0 := ne_of_gt hb2p
  have e1 : (reduceStats m raw1 rawN te0 tf0 cbe0).time_extinction =
      Dval.fin (sumTE m raw1 rawN / clamp0 (raw1 0) + te0 / clamp0 (raw1 0)) := by
    simp only [reduceStats]
    rw [if_neg hnl, ddiv, if_neg hb1, add_div, add_comm]
  have e2 : (reduceStats m raw1 rawN te0 tf0 cbe0).time_fixation =
      Dval.fin (sumTF m raw1 rawN / (1 - clamp0 (raw1 0))
        + tf0 / (1 - clamp0 (raw1 0))) := by
    simp only [reduceStats]
    rw [if_neg hnl2, ddiv, if_neg hb2, add_div, add_comm]
  have e3 : (reduceStats m raw1 rawN te0 tf0 cbe0).count_before_extinction =
      Dval.fin (sumCB m raw1 rawN / clamp0 (raw1 0) + cbe0 / clamp0 (raw1 0)) := by
    simp only [reduceStats]
    rw [ddiv, if_neg hb1, add_div, add_comm]
  refine ⟨e1, e2, e3, ?_⟩
  intro hne heq
  rw [e1] at heq
  have hq : sumTE m raw1 rawN / clamp0 (raw1 0) + te0 / clamp0 (raw1 0) =
      sumTE m raw1 rawN / clamp0 (raw1 0) := by
    injection heq
  have hzero : te0 / clamp0 (raw1 0) = 0 := by linarith
  rcases div_eq_zero_iff.mp hzero with hc | hc
  · exact hne hc
  · exact hb1 hc

/-- Witness for C10: incoming accumulator values 1 with B1[0] = 1/2 offset the
reported time by 1 / (1/2) = 2. -/
theorem wfes_accumulator_offset_witness :
    0 < clamp0 ((fun _ => (1/2 : ℚ)) 0)
    ∧ clamp0 ((fun _ => (1/2 : ℚ)) 0) < 1
    ∧ (reduceStats 1 (fun _ => 1/2) (fun _ => 1) 1 1 1).time_extinction =
        Dval.fin (sumTE 1 (fun _ => 1/2) (fun _ => 1) / clamp0 ((fun _ => (1/2 : ℚ)) 0)
          + 1 / clamp0 ((fun _ => (1/2 : ℚ)) 0)) :=
  ⟨by norm_num [clamp0], by norm_num [clamp0],
   (wfes_accumulator_offset 1 (fun _ => 1/2) (fun _ => 1) 1 1 1
     (by norm_num [clamp0]) (by norm_num [clamp0])).1⟩
